import Mathlib

/-!
Shallow embedding of the RGB-stack pipeline of the rasterio-plotting
notebook (src/rasterio_plotting.ipynb): the function create_rgb_stack
(percentile rescaling and CLAHE normalization of the red, green and blue
bands followed by np.stack) and the function write_rgb_image (profile
update and per-band write).  Machine floating point is idealized over the
rationals; numpy and scikit-image library calls are translated from their
documented semantics (np.nanpercentile with linear interpolation,
np.ma.masked_where, np.clip, np.stack, skimage.exposure.rescale_intensity);
the CLAHE kernel skimage.exposure.equalize_adapthist is kept as an explicit
function parameter, constrained only by its documented contract where a
theorem needs it.
-/

namespace RasterioPlotting

/-- A raster band: a 2-dimensional array of numeric samples, modelled as a
list of rows of rationals. -/
abbrev Band := List (List ℚ)

/-- A normalized band of unsigned 8-bit samples (values kept below 256 by
the uint8 cast). -/
abbrev BandU8 := List (List Nat)

/-- The numpy shape of a nested-list array: the list of row lengths (its
length is the height, its entries the widths). -/
def shapeOf (b : Band) : List Nat := b.map List.length

/-- Shape of a uint8 band. -/
def shapeU8 (b : BandU8) : List Nat := b.map List.length

/-- Cast of a rational to uint8 as numpy astype does for in-range values:
truncation toward zero, then reduction modulo 256. -/
def toU8 (x : ℚ) : Nat := ((if 0 ≤ x then ⌊x⌋ else ⌈x⌉) % 256).toNat

/-- np.clip with lower bound lo and upper bound hi: the minimum with hi of
the maximum with lo. -/
def clipQ (lo hi x : ℚ) : ℚ := min hi (max lo x)

/-- The affine rescaling applied by skimage exposure.rescale_intensity with
in_range equal to (vmin, vmax) and out_range uint8, before the cast: clip
into the in-range, shift by vmin, divide by the range width, scale by 255. -/
def rescaleVal (vmin vmax x : ℚ) : ℚ :=
  (clipQ vmin vmax x - vmin) / (vmax - vmin) * 255

/-- skimage exposure.rescale_intensity of a band with in_range (vmin, vmax)
and out_range uint8, composed with the astype uint8 cast the notebook
applies right after: whenever vmin and vmax differ, the affine rescale of
the clipped band; in the degenerate case the clipped band is clipped again
into the output range 0 to 255. -/
def rescale_intensity (band : Band) (vmin vmax : ℚ) : BandU8 :=
  if vmin ≠ vmax then
    band.map (List.map (fun x => toU8 (rescaleVal vmin vmax x)))
  else
    band.map (List.map (fun x => toU8 (clipQ 0 255 (clipQ vmin vmax x))))

/-- Ascending sort of sample values, as np.percentile performs internally. -/
def sortQ (l : List ℚ) : List ℚ := List.insertionSort (· ≤ ·) l

/-- np.percentile of a value list at q (0 to 100) with the default linear
interpolation: index q divided by 100 times (n - 1) into the sorted values,
interpolating between the two neighbouring order statistics.  On an empty
list (a case numpy rejects at runtime) the result is a junk default; the
theorems below always assume a nonempty value list. -/
def percentileQ (vals : List ℚ) (q : ℚ) : ℚ :=
  let s := sortQ vals
  let idx : ℚ := q / 100 * ((s.length : ℚ) - 1)
  let lo : Nat := ⌊idx⌋.toNat
  let frac : ℚ := idx - ⌊idx⌋
  s.getD lo 0 + frac * (s.getD (lo + 1) (s.getD lo 0) - s.getD lo 0)

/-- The masked working copy of a band: np.ma.masked_where on the condition
qa equals 1, cast to float and filled with NaN, with NaN modelled as none. -/
def maskedFilled (qa band : Band) : List (List (Option ℚ)) :=
  List.zipWith
    (fun qrow row => List.zipWith (fun q x => if q = 1 then none else some x) qrow row)
    qa band

/-- The values np.nanpercentile actually aggregates over: all entries of
the working copy that are not NaN. -/
def nanValues (m : List (List (Option ℚ))) : List ℚ := m.flatten.filterMap id

/-- Python exceptions surfaced by the embedded pipeline. -/
inductive PyError
  | keyError (key : String)
  | indexError (msg : String)
  | valueError (msg : String)
  | unboundLocal (name : String)
  | configError (msg : String)
deriving DecidableEq

/-- Whether an error is a deliberate configuration error.  The notebook
never raises one: the constructor configError exists only so the fail-fast
validation the spec describes can be stated and refuted. -/
def PyError.isConfigError : PyError → Bool
  | .configError _ => true
  | _ => false

/-- The rescaling branch of create_rgb_stack for one band: with a qa band
present, build the fill mask qa equals 1, mask and NaN-fill a working copy
(np.ma.masked_where raises IndexError when the condition shape differs from
the band shape), take the nanpercentiles at percentile and 100 - percentile,
and rescale the original band; with no qa key the KeyError is caught and
the percentiles are taken over the band itself. -/
def normalizeRescaling (qa? : Option Band) (band : Band) (percentile : ℚ) :
    Except PyError BandU8 :=
  match qa? with
  | some qa =>
      if shapeOf qa = shapeOf band then
        .ok (rescale_intensity band
          (percentileQ (nanValues (maskedFilled qa band)) percentile)
          (percentileQ (nanValues (maskedFilled qa band)) (100 - percentile)))
      else
        .error (.indexError "Inconsistent shape between the condition and the input")
  | none =>
      .ok (rescale_intensity band
        (percentileQ band.flatten percentile)
        (percentileQ band.flatten (100 - percentile)))

/-- The clahe branch of create_rgb_stack for one band: the CLAHE kernel
applied to the band with the given clip limit, scaled by 255 and cast to
uint8.  The fill mask is never consulted. -/
def normalizeClahe (eaHist : Band → ℚ → Band) (band : Band) (clip_limit : ℚ) : BandU8 :=
  (eaHist band clip_limit).map (List.map (fun x => toU8 (x * 255)))

/-- One iteration of the loop body of create_rgb_stack: dispatch on the
method string; for any unrecognized method neither branch assigns
modified_band, so the append of modified_band raises UnboundLocalError. -/
def processBand (eaHist : Band → ℚ → Band) (qa? : Option Band) (method : String)
    (percentile clip_limit : ℚ) (band : Band) : Except PyError BandU8 :=
  if method = "rescaling" then
    normalizeRescaling qa? band percentile
  else if method = "clahe" then
    .ok (normalizeClahe eaHist band clip_limit)
  else
    .error (.unboundLocal "modified_band")

/-- np.stack on a list of 2-dimensional arrays: succeeds exactly when all
inputs share one shape, otherwise raises ValueError with the fixed numpy
message, which does not mention the offending shapes. -/
def npStack (xs : List BandU8) : Except PyError (List BandU8) :=
  if ∀ b ∈ xs, shapeU8 b = shapeU8 (xs.headD []) then .ok xs
  else .error (.valueError "all input arrays must have the same shape")

/-- The band mapping passed to create_rgb_stack: the red, green and blue
band arrays, and the optional qa band (absence of the qa key makes the
fill-mask lookup raise the caught KeyError). -/
structure Bands where
  red : Band
  green : Band
  blue : Band
  qa : Option Band
deriving DecidableEq

/-- create_rgb_stack of the notebook: normalize the red, green and blue
bands in that fixed order with the selected method, then np.stack the three
results.  The first per-band failure aborts the call; no file is written by
this function. -/
def create_rgb_stack (eaHist : Band → ℚ → Band) (bands : Bands) (method : String)
    (percentile clip_limit : ℚ) : Except PyError (List BandU8) :=
  (processBand eaHist bands.qa method percentile clip_limit bands.red).bind fun r =>
  (processBand eaHist bands.qa method percentile clip_limit bands.green).bind fun g =>
  (processBand eaHist bands.qa method percentile clip_limit bands.blue).bind fun b =>
  npStack [r, g, b]

/-- The geospatial profile: the metadata keys write_rgb_image touches plus
the keys it carries along unchanged (coordinate reference system and affine
transform). -/
structure Profile where
  driver : String
  dtype : String
  count : Nat
  photometric : Option String
  crs : String
  transform : List ℚ
deriving DecidableEq

/-- The profile.update call of write_rgb_image: driver GTiff, dtype uint8,
band count 3, photometric RGB; every other key is untouched. -/
def Profile.updateForWrite (p : Profile) : Profile :=
  { p with driver := "GTiff", dtype := "uint8", count := 3, photometric := some "RGB" }

/-- The part of the bands dictionary that write_rgb_image reads: the shared
profile object and the rgb stack. -/
structure WriteEnv where
  profile : Profile
  rgb : List BandU8
deriving DecidableEq

/-- The file produced by write_rgb_image: its path, the profile it was
opened with, and the list of write_band calls as pairs of a 1-indexed band
position and the band written there. -/
structure WrittenFile where
  path : String
  profile : Profile
  bandWrites : List (Nat × BandU8)
deriving DecidableEq

/-- write_rgb_image of the notebook.  In Python, profile is the very dict
object stored in the bands mapping and profile.update mutates it in place,
so the environment after the call carries the updated profile; the result
pairs that post-call environment with the written file.  Each channel of
the rgb stack is written to its enumerate index plus one. -/
def write_rgb_image (bands : WriteEnv) (data_path : String) : WriteEnv × WrittenFile :=
  let profile := bands.profile.updateForWrite
  ({ bands with profile := profile },
   { path := data_path ++ "/rgb.tif",
     profile := profile,
     bandWrites := bands.rgb.enum.map (fun p => (p.1 + 1, p.2)) })

/-- Spec-side characterization of the values the masked percentile sees:
the band pixels whose paired qa pixel is not the sentinel 1. -/
def unmaskedValues (band qa : Band) : List ℚ :=
  ((band.flatten.zip qa.flatten).filter (fun vq => decide (vq.2 ≠ 1))).map Prod.fst

/-- The value list the rescaling branch feeds to np.nanpercentile, per
presence of the qa band. -/
def cutVals (qa? : Option Band) (band : Band) : List ℚ :=
  match qa? with
  | some qa => nanValues (maskedFilled qa band)
  | none => band.flatten

/-! Basic lemmas about the embedded operations. -/

/-- The uint8 cast always lands in the byte range. -/
theorem toU8_le (x : ℚ) : toU8 x ≤ 255 := by
  unfold toU8
  have h2 : (0:ℤ) < 256 := by norm_num
  have hlt : (if 0 ≤ x then ⌊x⌋ else ⌈x⌉) % 256 < 256 := Int.emod_lt_of_pos _ h2
  omega

/-- Mapping a pixel function over every row preserves the shape. -/
theorem shapeU8_map_map (b : Band) (f : ℚ → Nat) :
    shapeU8 (b.map (List.map f)) = shapeOf b := by
  simp [shapeU8, shapeOf]

/-- Flattening after a per-pixel map is mapping over the flattening. -/
theorem flatten_map_map (b : Band) (f : ℚ → Nat) :
    (b.map (List.map f)).flatten = b.flatten.map f :=
  (List.map_flatten f b).symm

/-- rescale_intensity preserves the shape of the band, whatever the cut
points are. -/
theorem rescale_intensity_shape (band : Band) (vmin vmax : ℚ) :
    shapeU8 (rescale_intensity band vmin vmax) = shapeOf band := by
  unfold rescale_intensity
  by_cases h : vmin ≠ vmax <;> simp [h, shapeU8_map_map]

/-- Every sample of a rescaled band is a byte. -/
theorem rescale_intensity_le (band : Band) (vmin vmax : ℚ) :
    ∀ v ∈ (rescale_intensity band vmin vmax).flatten, v ≤ 255 := by
  intro v hv
  unfold rescale_intensity at hv
  by_cases h : vmin ≠ vmax
  · rw [if_pos h, flatten_map_map] at hv
    obtain ⟨x, _, rfl⟩ := List.mem_map.mp hv
    exact toU8_le _
  · rw [if_neg h, flatten_map_map] at hv
    obtain ⟨x, _, rfl⟩ := List.mem_map.mp hv
    exact toU8_le _

/-- Clipping with equal bounds is constant. -/
theorem clipQ_self (v x : ℚ) : clipQ v v x = v := by
  unfold clipQ
  rcases le_total x v with h | h
  · rw [max_eq_left h, min_self]
  · rw [max_eq_right h, min_eq_left h]

/-- Clipping at a value below the lower bound yields the lower bound. -/
theorem clipQ_of_le (lo hi x : ℚ) (hlh : lo ≤ hi) (h : x ≤ lo) : clipQ lo hi x = lo := by
  unfold clipQ
  rw [max_eq_left h, min_eq_right hlh]

/-- Clipping at a value above the upper bound yields the upper bound. -/
theorem clipQ_of_ge (lo hi x : ℚ) (hlh : lo ≤ hi) (h : hi ≤ x) : clipQ lo hi x = hi := by
  unfold clipQ
  rw [max_eq_right (hlh.trans h), min_eq_left h]

/-- The clipped value stays between the bounds. -/
theorem clipQ_mem (lo hi x : ℚ) (hlh : lo ≤ hi) :
    lo ≤ clipQ lo hi x ∧ clipQ lo hi x ≤ hi := by
  unfold clipQ
  constructor
  · exact le_min hlh (le_max_left _ _)
  · exact min_le_left _ _

/-- The affine rescale sends any sample into the interval 0 to 255 when the
cut points are strictly ordered. -/
theorem rescaleVal_mem (vmin vmax x : ℚ) (h : vmin < vmax) :
    0 ≤ rescaleVal vmin vmax x ∧ rescaleVal vmin vmax x ≤ 255 := by
  obtain ⟨h1, h2⟩ := clipQ_mem vmin vmax x h.le
  have hpos : 0 < vmax - vmin := by linarith
  unfold rescaleVal
  constructor
  · have : 0 ≤ (clipQ vmin vmax x - vmin) / (vmax - vmin) :=
      div_nonneg (by linarith) hpos.le
    linarith
  · have hle : (clipQ vmin vmax x - vmin) / (vmax - vmin) ≤ 1 := by
      rw [div_le_one hpos]; linarith
    nlinarith

/-- A sample at or below the low cut point rescales to exactly 0. -/
theorem rescaleVal_low (vmin vmax x : ℚ) (h : vmin < vmax) (hx : x ≤ vmin) :
    rescaleVal vmin vmax x = 0 := by
  unfold rescaleVal
  rw [clipQ_of_le _ _ _ h.le hx]
  simp

/-- A sample at or above the high cut point rescales to exactly 255. -/
theorem rescaleVal_high (vmin vmax x : ℚ) (h : vmin < vmax) (hx : vmax ≤ x) :
    rescaleVal vmin vmax x = 255 := by
  unfold rescaleVal
  rw [clipQ_of_ge _ _ _ h.le hx, div_self (by linarith), one_mul]

/-- toU8 of 0 is 0. -/
theorem toU8_zero : toU8 0 = 0 := by norm_num [toU8]

/-- toU8 of 255 is 255. -/
theorem toU8_255 : toU8 255 = 255 := by
  norm_num [toU8, show Int.toNat 255 = 255 from rfl]

/-- np.min of a list of uint8 samples (numpy rejects the empty list; here
it defaults to 0, and the theorems below only use nonempty lists). -/
def npMinN : List Nat → Nat
  | [] => 0
  | x :: xs => xs.foldl min x

/-- np.max of a list of uint8 samples, with the same convention. -/
def npMaxN : List Nat → Nat
  | [] => 0
  | x :: xs => xs.foldl max x

theorem foldl_min_zero (xs : List Nat) : xs.foldl min 0 = 0 := by
  induction xs with
  | nil => rfl
  | cons y ys ih => rw [List.foldl_cons, min_eq_left (Nat.zero_le y), ih]

theorem foldl_min_of_mem_zero (xs : List Nat) (x : Nat) (h : 0 ∈ xs) :
    xs.foldl min x = 0 := by
  induction xs generalizing x with
  | nil => cases h
  | cons y ys ih =>
    rw [List.foldl_cons]
    rcases List.mem_cons.mp h with h0 | h0
    · rw [← h0, min_eq_right (Nat.zero_le x)]
      exact foldl_min_zero ys
    · exact ih _ h0

/-- The minimum of a uint8 sample list containing 0 is 0. -/
theorem npMinN_eq_zero (xs : List Nat) (h : 0 ∈ xs) : npMinN xs = 0 := by
  cases xs with
  | nil => cases h
  | cons x l =>
    show l.foldl min x = 0
    rcases List.mem_cons.mp h with h0 | h0
    · rw [← h0]
      exact foldl_min_zero l
    · exact foldl_min_of_mem_zero l x h0

theorem foldl_max_const (xs : List Nat) (h : ∀ v ∈ xs, v ≤ 255) :
    xs.foldl max 255 = 255 := by
  induction xs with
  | nil => rfl
  | cons y ys ih =>
    rw [List.foldl_cons, max_eq_left (h y (List.mem_cons_self _ _))]
    exact ih fun v hv => h v (List.mem_cons_of_mem _ hv)

theorem foldl_max_of_mem (xs : List Nat) (x : Nat) (h255 : 255 ∈ xs)
    (hall : ∀ v ∈ xs, v ≤ 255) (hx : x ≤ 255) : xs.foldl max x = 255 := by
  induction xs generalizing x with
  | nil => cases h255
  | cons y ys ih =>
    rw [List.foldl_cons]
    rcases List.mem_cons.mp h255 with h0 | h0
    · rw [← h0, max_eq_right hx]
      exact foldl_max_const ys fun v hv => hall v (List.mem_cons_of_mem _ hv)
    · exact ih _ h0 (fun v hv => hall v (List.mem_cons_of_mem _ hv))
        (max_le hx (hall y (List.mem_cons_self _ _)))

/-- The maximum of a uint8 sample list that contains 255 and is bounded by
255 is 255. -/
theorem npMaxN_eq_255 (xs : List Nat) (h255 : 255 ∈ xs)
    (hall : ∀ v ∈ xs, v ≤ 255) : npMaxN xs = 255 := by
  cases xs with
  | nil => cases h255
  | cons x l =>
    show l.foldl max x = 255
    rcases List.mem_cons.mp h255 with h0 | h0
    · rw [← h0]
      exact foldl_max_const l fun v hv => hall v (List.mem_cons_of_mem _ hv)
    · exact foldl_max_of_mem l x h0 (fun v hv => hall v (List.mem_cons_of_mem _ hv))
        (hall x (List.mem_cons_self _ _))

/-- The linear-interpolation percentile of a nonempty value list at a rank
between 0 and 100 lies between two members of the list. -/
theorem percentileQ_between (vals : List ℚ) (q : ℚ) (hne : vals ≠ [])
    (hq0 : 0 ≤ q) (hq1 : q ≤ 100) :
    ∃ a ∈ vals, ∃ b ∈ vals, a ≤ percentileQ vals q ∧ percentileQ vals q ≤ b := by
  simp only [percentileQ]
  set s := sortQ vals with hs
  have hperm : List.Perm s vals := List.perm_insertionSort _ _
  have hsorted : List.Sorted (fun a b => a ≤ b) s := List.sorted_insertionSort _ _
  have hpos : 0 < s.length := by
    rw [hperm.length_eq]
    exact List.length_pos_of_ne_nil hne
  have hn1 : (1:ℚ) ≤ (s.length : ℚ) := by exact_mod_cast hpos
  set idx := q / 100 * ((s.length : ℚ) - 1) with hidx
  have hidx0 : 0 ≤ idx := mul_nonneg (div_nonneg hq0 (by norm_num)) (by linarith)
  have hidx1 : idx ≤ (s.length : ℚ) - 1 := by
    have hq : q / 100 ≤ 1 := (div_le_one (by norm_num)).mpr hq1
    calc idx ≤ 1 * ((s.length : ℚ) - 1) :=
          mul_le_mul_of_nonneg_right hq (by linarith)
      _ = (s.length : ℚ) - 1 := one_mul _
  have hfl0 : 0 ≤ ⌊idx⌋ := Int.floor_nonneg.mpr hidx0
  have hfl1 : ⌊idx⌋ ≤ (s.length : ℤ) - 1 := by
    have hcast : ((s.length : ℚ) - 1) = (((s.length : ℤ) - 1 : ℤ) : ℚ) := by push_cast; ring
    have := Int.floor_le_floor (α := ℚ) hidx1
    rwa [hcast, Int.floor_intCast] at this
  have hlo : (⌊idx⌋.toNat : ℤ) = ⌊idx⌋ := Int.toNat_of_nonneg hfl0
  have hlo_lt : ⌊idx⌋.toNat < s.length := by omega
  have hfrac0 : 0 ≤ idx - ⌊idx⌋ := by linarith [Int.floor_le idx]
  have hfrac1 : idx - ⌊idx⌋ < 1 := by linarith [Int.lt_floor_add_one idx]
  have ha_get : s.getD ⌊idx⌋.toNat 0 = s[⌊idx⌋.toNat] := List.getD_eq_getElem s 0 hlo_lt
  have ha_mem : s.getD ⌊idx⌋.toNat 0 ∈ vals := by
    rw [ha_get]
    exact hperm.mem_iff.mp (List.getElem_mem hlo_lt)
  by_cases hcase : ⌊idx⌋.toNat + 1 < s.length
  · have hb_get : s.getD (⌊idx⌋.toNat + 1) (s.getD ⌊idx⌋.toNat 0) = s[⌊idx⌋.toNat + 1] :=
      List.getD_eq_getElem s _ hcase
    have hb_mem : s.getD (⌊idx⌋.toNat + 1) (s.getD ⌊idx⌋.toNat 0) ∈ vals := by
      rw [hb_get]
      exact hperm.mem_iff.mp (List.getElem_mem hcase)
    have hab : s.getD ⌊idx⌋.toNat 0 ≤ s.getD (⌊idx⌋.toNat + 1) (s.getD ⌊idx⌋.toNat 0) := by
      rw [hb_get, ha_get]
      exact List.pairwise_iff_getElem.mp hsorted _ _ hlo_lt hcase (Nat.lt_succ_self _)
    refine ⟨_, ha_mem, _, hb_mem, ?_, ?_⟩
    · nlinarith
    · nlinarith
  · have hb_def : s.getD (⌊idx⌋.toNat + 1) (s.getD ⌊idx⌋.toNat 0) = s.getD ⌊idx⌋.toNat 0 :=
      List.getD_eq_default s _ (by omega)
    refine ⟨_, ha_mem, _, ha_mem, ?_, ?_⟩ <;> rw [hb_def] <;> nlinarith

/-- Row-level mask characterization: filtering the NaN markers out of one
masked row keeps exactly the band samples whose qa sample is not 1. -/
theorem filterMap_zipWith_mask (qrow row : List ℚ) (hlen : qrow.length = row.length) :
    (List.zipWith (fun q x => if q = 1 then none else some x) qrow row).filterMap id =
      ((row.zip qrow).filter (fun vq => decide (vq.2 ≠ 1))).map Prod.fst := by
  induction qrow generalizing row with
  | nil =>
    cases row with
    | nil => rfl
    | cons x xs => simp at hlen
  | cons q qs ih =>
    cases row with
    | nil => simp at hlen
    | cons x xs =>
      have hlen2 : qs.length = xs.length := by simpa using hlen
      by_cases hq : q = 1
      · simp [List.zipWith_cons_cons, List.filterMap_cons, List.filter_cons, hq, ih xs hlen2]
      · simp [List.zipWith_cons_cons, List.filterMap_cons, List.filter_cons, hq, ih xs hlen2]

/-- Mask characterization for a whole band: the values the nanpercentile
sees are exactly the band pixels whose qa pixel is not the sentinel 1, in
row-major order. -/
theorem nanValues_maskedFilled (qa band : Band) (hshape : shapeOf qa = shapeOf band) :
    nanValues (maskedFilled qa band) = unmaskedValues band qa := by
  induction qa generalizing band with
  | nil =>
    cases band with
    | nil => rfl
    | cons r rs => simp [shapeOf] at hshape
  | cons q qs ih =>
    cases band with
    | nil => simp [shapeOf] at hshape
    | cons r rs =>
      have hlen : q.length = r.length := by
        have := congrArg (fun l => l.headD 0) hshape
        simpa [shapeOf] using this
      have hrest : shapeOf qs = shapeOf rs := by
        have := congrArg List.tail hshape
        simpa [shapeOf] using this
      have hzip : (r ++ rs.flatten).zip (q ++ qs.flatten) =
          r.zip q ++ rs.flatten.zip qs.flatten := List.zip_append hlen.symm
      unfold nanValues maskedFilled unmaskedValues at ih ⊢
      rw [List.zipWith_cons_cons, List.flatten_cons, List.filterMap_append,
        List.flatten_cons, List.flatten_cons, hzip, List.filter_append, List.map_append,
        filterMap_zipWith_mask q r hlen, ih rs hrest]

/-- Degenerate rescale: with equal cut points every pixel collapses to the
cut point clipped into the byte range. -/
theorem rescale_intensity_deg (band : Band) (v : ℚ) :
    rescale_intensity band v v = band.map (List.map (fun _ => toU8 (clipQ 0 255 v))) := by
  unfold rescale_intensity
  rw [if_neg (by simp)]
  simp [clipQ_self]

/-- For a recognized method (with matching qa shape on the rescaling path),
the per-band loop body succeeds with a band of the input shape whose
samples are all bytes. -/
theorem processBand_ok_shape (eaHist : Band → ℚ → Band) (qa? : Option Band)
    (method : String) (p cl : ℚ) (band : Band)
    (hea : ∀ b c, shapeOf (eaHist b c) = shapeOf b)
    (hm : method = "rescaling" ∨ method = "clahe")
    (hqa : method = "rescaling" → ∀ qa ∈ qa?, shapeOf qa = shapeOf band) :
    ∃ out, processBand eaHist qa? method p cl band = .ok out ∧
      shapeU8 out = shapeOf band ∧ ∀ v ∈ out.flatten, v ≤ 255 := by
  rcases hm with hm | hm
  · subst hm
    unfold processBand
    rw [if_pos rfl]
    cases qa? with
    | none =>
      exact ⟨_, rfl, rescale_intensity_shape _ _ _, rescale_intensity_le _ _ _⟩
    | some qa =>
      simp only [normalizeRescaling]
      rw [if_pos (hqa rfl qa rfl)]
      exact ⟨_, rfl, rescale_intensity_shape _ _ _, rescale_intensity_le _ _ _⟩
  · subst hm
    unfold processBand
    rw [if_neg (by decide), if_pos rfl]
    refine ⟨_, rfl, ?_, ?_⟩
    · unfold normalizeClahe
      rw [shapeU8_map_map, hea]
    · intro v hv
      unfold normalizeClahe at hv
      rw [flatten_map_map] at hv
      obtain ⟨x, _, rfl⟩ := List.mem_map.mp hv
      exact toU8_le _

/-! Claims. -/

/-- Claim C1, corrected: a call with an unrecognized method does not fail
with a configuration error at entry; no validation exists, the loop body
falls through both branches and the append of the never-assigned
modified_band raises UnboundLocalError on the first iteration, after the
three input arrays have been fetched from the mapping, and no RGB output is
produced. -/
theorem c1_unrecognized_method_unbound_local (eaHist : Band → ℚ → Band)
    (bands : Bands) (method : String) (p cl : ℚ)
    (h1 : method ≠ "rescaling") (h2 : method ≠ "clahe") :
    create_rgb_stack eaHist bands method p cl =
      .error (.unboundLocal "modified_band") := by
  unfold create_rgb_stack processBand
  rw [if_neg h1, if_neg h2]
  rfl

/-- Witness for C1 at the method string bogus of the spec scenario. -/
theorem c1_witness :
    ("bogus" ≠ "rescaling") ∧ ("bogus" ≠ "clahe") ∧
    create_rgb_stack (fun b _ => b) ⟨[[0]], [[0]], [[0]], none⟩ "bogus" 2 (3/100) =
      .error (.unboundLocal "modified_band") :=
  ⟨by decide, by decide,
    c1_unrecognized_method_unbound_local (fun b _ => b) ⟨[[0]], [[0]], [[0]], none⟩
      "bogus" 2 (3/100) (by decide) (by decide)⟩

/-- Counterexample for C1 as stated: at the concrete method bogus the call
fails with an UnboundLocalError, which is not a configuration error. -/
theorem c1_counterexample :
    create_rgb_stack (fun b _ => b) ⟨[[0]], [[0]], [[0]], none⟩ "bogus" 2 (3/100) =
      .error (.unboundLocal "modified_band") ∧
    (PyError.unboundLocal "modified_band").isConfigError = false :=
  ⟨rfl, rfl⟩

/-- Claim C2, corrected: the write derives the output metadata by updating
the input profile in place (driver GTiff, dtype uint8, count 3,
photometric RGB, all other keys preserved), so the profile stored in the
callers band mapping is the very same updated object after the call; it is
not left unchanged. -/
theorem c2_write_profile_update (env : WriteEnv) (path : String) :
    (write_rgb_image env path).2.profile.driver = "GTiff" ∧
    (write_rgb_image env path).2.profile.dtype = "uint8" ∧
    (write_rgb_image env path).2.profile.count = 3 ∧
    (write_rgb_image env path).2.profile.photometric = some "RGB" ∧
    (write_rgb_image env path).2.profile.crs = env.profile.crs ∧
    (write_rgb_image env path).2.profile.transform = env.profile.transform ∧
    (write_rgb_image env path).1.profile = (write_rgb_image env path).2.profile ∧
    (write_rgb_image env path).2.path = path ++ "/rgb.tif" ∧
    (write_rgb_image env path).2.bandWrites = env.rgb.enum.map (fun q => (q.1 + 1, q.2)) :=
  ⟨rfl, rfl, rfl, rfl, rfl, rfl, rfl, rfl, rfl⟩

/-- Counterexample for C2 as stated: a concrete uint16 single-band profile
is mutated by the write (its count becomes 3), so the callers profile is
not left unchanged. -/
theorem c2_counterexample :
    (write_rgb_image ⟨⟨"GTiff", "uint16", 1, none, "EPSG:32618", []⟩, [[[0]]]⟩
        "data").1.profile ≠
      (⟨"GTiff", "uint16", 1, none, "EPSG:32618", []⟩ : Profile) := by
  intro h
  have hc := congrArg Profile.count h
  simp [write_rgb_image, Profile.updateForWrite] at hc

/-- Claim C6, confirmed: the clahe path never consults the fill mask; the
result is identical with the qa band removed, and each band maps to the
CLAHE kernel output scaled by 255 and truncated to uint8. -/
theorem c6_clahe_ignores_mask (eaHist : Band → ℚ → Band) (bands : Bands) (p cl : ℚ) :
    create_rgb_stack eaHist { bands with qa := none } "clahe" p cl =
      create_rgb_stack eaHist bands "clahe" p cl ∧
    ∀ band, processBand eaHist bands.qa "clahe" p cl band =
      .ok ((eaHist band cl).map (List.map (fun x => toU8 (x * 255)))) :=
  ⟨rfl, fun _ => rfl⟩

/-- Claim C3, corrected: when the two cut points coincide the rescaling
path still terminates without a division error (the degenerate branch of
rescale_intensity avoids the division), and every output pixel resolves
deterministically to one single value, namely the common cut point clipped
into the interval 0 to 255 and cast to uint8 — which is a bound (0 or 255)
only when the cut point lies outside that open interval, not in general. -/
theorem c3_degenerate_single_value (qa? : Option Band) (band : Band) (p : ℚ)
    (hqa : ∀ qa ∈ qa?, shapeOf qa = shapeOf band)
    (hne : cutVals qa? band ≠ [])
    (hdeg : percentileQ (cutVals qa? band) p = percentileQ (cutVals qa? band) (100 - p)) :
    normalizeRescaling qa? band p =
      .ok (band.map (List.map (fun _ =>
        toU8 (clipQ 0 255 (percentileQ (cutVals qa? band) p))))) := by
  cases qa? with
  | none =>
    simp only [normalizeRescaling, cutVals] at hdeg ⊢
    rw [← hdeg, rescale_intensity_deg]
  | some qa =>
    simp only [normalizeRescaling, cutVals] at hdeg ⊢
    rw [if_pos (hqa qa rfl), ← hdeg, rescale_intensity_deg]

/-- Witness for C3 on the constant band of value 100. -/
theorem c3_witness :
    (∀ qa ∈ (none : Option Band), shapeOf qa = shapeOf [[100,100],[100,100]]) ∧
    cutVals none [[100,100],[100,100]] ≠ [] ∧
    percentileQ (cutVals none [[100,100],[100,100]]) 2 =
      percentileQ (cutVals none [[100,100],[100,100]]) (100 - 2) ∧
    normalizeRescaling none [[100,100],[100,100]] 2 =
      .ok (([[100,100],[100,100]] : Band).map (List.map (fun _ =>
        toU8 (clipQ 0 255 (percentileQ (cutVals none [[100,100],[100,100]]) 2))))) := by
  have h1 : ∀ qa ∈ (none : Option Band), shapeOf qa = shapeOf [[100,100],[100,100]] := by
    simp
  have h2 : cutVals none ([[100,100],[100,100]] : Band) ≠ [] := by
    simp [cutVals]
  have h3 : percentileQ (cutVals none [[100,100],[100,100]]) 2 =
      percentileQ (cutVals none [[100,100],[100,100]]) (100 - 2) := by
    norm_num [cutVals, percentileQ, sortQ, List.insertionSort, List.orderedInsert,
      List.getD_cons_zero, List.getD_cons_succ, show Int.toNat 2 = 2 from rfl]
  exact ⟨h1, h2, h3, c3_degenerate_single_value none _ 2 h1 h2 h3⟩

/-- Counterexample for C3 as stated: on the constant band of value 100 the
degenerate rescale yields 100 at every pixel, which is neither 0 nor 255. -/
theorem c3_counterexample :
    normalizeRescaling none [[100,100],[100,100]] 2 = .ok [[100,100],[100,100]] ∧
    ¬((100:Nat) = 0 ∨ (100:Nat) = 255) := by
  constructor
  · have hmin : percentileQ (([[100,100],[100,100]] : Band).flatten) 2 = 100 := by
      norm_num [percentileQ, sortQ, List.insertionSort, List.orderedInsert,
        List.getD_cons_zero, List.getD_cons_succ, show Int.toNat 2 = 2 from rfl]
    have hmax : percentileQ (([[100,100],[100,100]] : Band).flatten) (100 - 2) = 100 := by
      norm_num [percentileQ, sortQ, List.insertionSort, List.orderedInsert,
        List.getD_cons_zero, List.getD_cons_succ, show Int.toNat 2 = 2 from rfl]
    unfold normalizeRescaling
    rw [hmin, hmax, rescale_intensity_deg]
    norm_num [clipQ, toU8, show Int.toNat 100 = 100 from rfl]
  · norm_num

/-- Claim C9, confirmed: on the spec scenario band with rows 0 0 and
100 200, no mask, percentile 2, the rescaled band is 0 0 over 131 255, so
the input ordering is preserved (0 maps below 100 maps below 200), the
minimum input maps to exactly 0 and the maximum to exactly 255. -/
theorem c9_scenario_rescale_ordering :
    normalizeRescaling none [[0,0],[100,200]] 2 = .ok [[0,0],[131,255]] ∧
    (0:Nat) < 131 ∧ (131:Nat) < 255 := by
  refine ⟨?_, by norm_num, by norm_num⟩
  have hmin : percentileQ (([[0,0],[100,200]] : Band).flatten) 2 = 0 := by
    norm_num [percentileQ, sortQ, List.insertionSort, List.orderedInsert,
      List.getD_cons_zero, List.getD_cons_succ, show Int.toNat 2 = 2 from rfl]
  have hmax : percentileQ (([[0,0],[100,200]] : Band).flatten) (100 - 2) = 194 := by
    norm_num [percentileQ, sortQ, List.insertionSort, List.orderedInsert,
      List.getD_cons_zero, List.getD_cons_succ, show Int.toNat 2 = 2 from rfl]
  unfold normalizeRescaling
  rw [hmin, hmax]
  unfold rescale_intensity
  rw [if_pos (by norm_num : (0:ℚ) ≠ 194)]
  norm_num [rescaleVal, clipQ, toU8, show Int.toNat 131 = 131 from rfl,
    show Int.toNat 255 = 255 from rfl]

/-- Claim C5, confirmed: with a fill mask present the cut points are the
percentiles of exactly the unmasked pixels (the NaN-filled working copy
drops precisely the pixels whose qa value is 1), and the linear rescale is
then applied to the original band — including its masked pixels — not to
the masked copy. -/
theorem c5_mask_excluded_from_cuts (band qa : Band) (p : ℚ)
    (hshape : shapeOf qa = shapeOf band)
    (_hne : unmaskedValues band qa ≠ []) :
    nanValues (maskedFilled qa band) = unmaskedValues band qa ∧
    normalizeRescaling (some qa) band p =
      .ok (rescale_intensity band (percentileQ (unmaskedValues band qa) p)
        (percentileQ (unmaskedValues band qa) (100 - p))) := by
  have hm := nanValues_maskedFilled qa band hshape
  refine ⟨hm, ?_⟩
  simp only [normalizeRescaling]
  rw [if_pos hshape, hm]

/-- Witness for C5 on a band with one masked outlier pixel. -/
theorem c5_witness :
    shapeOf [[0,1],[0,0]] = shapeOf [[10,1000],[20,30]] ∧
    unmaskedValues [[10,1000],[20,30]] [[0,1],[0,0]] ≠ [] ∧
    (nanValues (maskedFilled [[0,1],[0,0]] [[10,1000],[20,30]]) =
       unmaskedValues [[10,1000],[20,30]] [[0,1],[0,0]] ∧
     normalizeRescaling (some [[0,1],[0,0]]) [[10,1000],[20,30]] 2 =
       .ok (rescale_intensity [[10,1000],[20,30]]
         (percentileQ (unmaskedValues [[10,1000],[20,30]] [[0,1],[0,0]]) 2)
         (percentileQ (unmaskedValues [[10,1000],[20,30]] [[0,1],[0,0]]) (100 - 2)))) := by
  have h1 : shapeOf [[0,1],[0,0]] = shapeOf [[10,1000],[20,30]] := rfl
  have h2 : unmaskedValues [[10,1000],[20,30]] [[0,1],[0,0]] ≠ [] := by
    norm_num [unmaskedValues, List.zip, List.zipWith, List.filter]
    exact List.cons_ne_nil _ _
  exact ⟨h1, h2, c5_mask_excluded_from_cuts [[10,1000],[20,30]] [[0,1],[0,0]] 2 h1 h2⟩

/-- Claim C10, confirmed: the fill mask keeps exactly the pixels whose qa
value differs from the sentinel 1 (any other qa value counts as valid), and
with no qa key the caught KeyError makes the cut points the percentiles of
all pixels of the band. -/
theorem c10_qa_sentinel_and_fallback (band qa : Band) (p : ℚ)
    (hshape : shapeOf qa = shapeOf band)
    (_hne : band.flatten ≠ []) :
    nanValues (maskedFilled qa band) = unmaskedValues band qa ∧
    normalizeRescaling none band p =
      .ok (rescale_intensity band (percentileQ band.flatten p)
        (percentileQ band.flatten (100 - p))) :=
  ⟨nanValues_maskedFilled qa band hshape, rfl⟩

/-- Witness for C10 on a band whose qa values are the sentinel 1 and the
non-sentinel 2. -/
theorem c10_witness :
    shapeOf [[1,2]] = shapeOf [[3,4]] ∧
    ([[3,4]] : Band).flatten ≠ [] ∧
    (nanValues (maskedFilled [[1,2]] [[3,4]]) = unmaskedValues [[3,4]] [[1,2]] ∧
     normalizeRescaling none [[3,4]] 2 =
       .ok (rescale_intensity [[3,4]]
         (percentileQ (([[3,4]] : Band).flatten) 2)
         (percentileQ (([[3,4]] : Band).flatten) (100 - 2)))) := by
  have h1 : shapeOf [[1,2]] = shapeOf [[3,4]] := rfl
  have h2 : ([[3,4]] : Band).flatten ≠ [] := by simp
  exact ⟨h1, h2, c10_qa_sentinel_and_fallback [[3,4]] [[1,2]] 2 h1 h2⟩

/-- Claim C7, corrected: when the three band shapes are not all equal (and
the per-band normalization itself succeeds), create_rgb_stack fails at the
np.stack call with the generic numpy ValueError whose fixed message does
not include the offending shapes, and no RGB output is produced —
create_rgb_stack performs no file write at all, so no partial write can
occur. -/
theorem c7_stack_mismatch_generic_error (eaHist : Band → ℚ → Band) (bands : Bands)
    (method : String) (p cl : ℚ)
    (hea : ∀ b c, shapeOf (eaHist b c) = shapeOf b)
    (hm : (method = "rescaling" ∧ bands.qa = none) ∨ method = "clahe")
    (hdiff : ¬(shapeOf bands.green = shapeOf bands.red ∧
               shapeOf bands.blue = shapeOf bands.red)) :
    create_rgb_stack eaHist bands method p cl =
      .error (.valueError "all input arrays must have the same shape") := by
  have hm' : method = "rescaling" ∨ method = "clahe" := hm.imp And.left id
  have hqa : ∀ band : Band, method = "rescaling" → ∀ qa ∈ bands.qa, shapeOf qa = shapeOf band := by
    intro band hresc qa hmem
    rcases hm with ⟨_, hnone⟩ | hcl
    · rw [hnone] at hmem
      cases hmem
    · rw [hcl] at hresc
      exact absurd hresc (by decide)
  obtain ⟨pr, hr, hrs, _⟩ :=
    processBand_ok_shape eaHist bands.qa method p cl bands.red hea hm' (hqa _)
  obtain ⟨pg, hg2, hgs, _⟩ :=
    processBand_ok_shape eaHist bands.qa method p cl bands.green hea hm' (hqa _)
  obtain ⟨pb, hb2, hbs, _⟩ :=
    processBand_ok_shape eaHist bands.qa method p cl bands.blue hea hm' (hqa _)
  unfold create_rgb_stack
  rw [hr, hg2, hb2]
  show npStack [pr, pg, pb] = _
  unfold npStack
  have hcond : ¬ ∀ x ∈ [pr, pg, pb], shapeU8 x = shapeU8 ([pr, pg, pb].headD []) := by
    intro hall
    apply hdiff
    have h1 := hall pg (by simp)
    have h2 := hall pb (by simp)
    simp only [List.headD_cons] at h1 h2
    exact ⟨by rw [← hgs, h1, hrs], by rw [← hbs, h2, hrs]⟩
  rw [if_neg hcond]

/-- Witness for C7 at concrete mismatched bands with the rescaling method
and no qa band. -/
theorem c7_witness :
    (∀ b c, shapeOf ((fun (b : Band) (_ : ℚ) => b) b c) = shapeOf b) ∧
    (("rescaling" = "rescaling" ∧
        (Bands.mk [[1,2]] [[1],[2]] [[1,2]] none).qa = none) ∨
      ("rescaling" : String) = "clahe") ∧
    ¬(shapeOf (Bands.mk [[1,2]] [[1],[2]] [[1,2]] none).green =
        shapeOf (Bands.mk [[1,2]] [[1],[2]] [[1,2]] none).red ∧
      shapeOf (Bands.mk [[1,2]] [[1],[2]] [[1,2]] none).blue =
        shapeOf (Bands.mk [[1,2]] [[1],[2]] [[1,2]] none).red) ∧
    create_rgb_stack (fun b _ => b) (Bands.mk [[1,2]] [[1],[2]] [[1,2]] none)
        "rescaling" 2 (3/100) =
      .error (.valueError "all input arrays must have the same shape") := by
  have h1 : ∀ b c, shapeOf ((fun (b : Band) (_ : ℚ) => b) b c) = shapeOf b :=
    fun _ _ => rfl
  have h2 : (("rescaling" = "rescaling" ∧
      (Bands.mk [[1,2]] [[1],[2]] [[1,2]] none).qa = none) ∨
      ("rescaling" : String) = "clahe") := Or.inl ⟨rfl, rfl⟩
  have h3 : ¬(shapeOf (Bands.mk [[1,2]] [[1],[2]] [[1,2]] none).green =
      shapeOf (Bands.mk [[1,2]] [[1],[2]] [[1,2]] none).red ∧
      shapeOf (Bands.mk [[1,2]] [[1],[2]] [[1,2]] none).blue =
      shapeOf (Bands.mk [[1,2]] [[1],[2]] [[1,2]] none).red) := by
    simp [shapeOf]
  exact ⟨h1, h2, h3,
    c7_stack_mismatch_generic_error (fun b _ => b) _ "rescaling" 2 (3/100) h1 h2 h3⟩

/-- Counterexample for C7 as stated: two different shape mismatches yield
the very same error value, whose entire payload is the fixed numpy message,
so the error does not report the offending shapes. -/
theorem c7_counterexample :
    create_rgb_stack (fun b _ => b) (Bands.mk [[1,2]] [[1],[2]] [[1,2]] none)
        "clahe" 2 (3/100) =
      .error (.valueError "all input arrays must have the same shape") ∧
    create_rgb_stack (fun b _ => b) (Bands.mk [[5]] [[5,6,7]] [[5]] none)
        "clahe" 2 (3/100) =
      .error (.valueError "all input arrays must have the same shape") :=
  ⟨rfl, rfl⟩

/-- Claim C4, confirmed: for valid inputs (nonempty bands of one shared
shape, a qa band of that shape when present, a shape-preserving CLAHE
kernel) and either recognized method, each normalized band keeps the shape
of its input band with all samples bytes, and create_rgb_stack returns the
stack of exactly the three normalized bands in the fixed red, green, blue
order. -/
theorem c4_output_shape_dtype_order (eaHist : Band → ℚ → Band) (bands : Bands)
    (method : String) (p cl : ℚ)
    (hea : ∀ b c, shapeOf (eaHist b c) = shapeOf b)
    (hm : method = "rescaling" ∨ method = "clahe")
    (hg : shapeOf bands.green = shapeOf bands.red)
    (hb : shapeOf bands.blue = shapeOf bands.red)
    (hqa : ∀ qa ∈ bands.qa, shapeOf qa = shapeOf bands.red)
    (_hne : bands.red.flatten ≠ []) :
    ∃ pr pg pb,
      processBand eaHist bands.qa method p cl bands.red = .ok pr ∧
      processBand eaHist bands.qa method p cl bands.green = .ok pg ∧
      processBand eaHist bands.qa method p cl bands.blue = .ok pb ∧
      create_rgb_stack eaHist bands method p cl = .ok [pr, pg, pb] ∧
      shapeU8 pr = shapeOf bands.red ∧
      shapeU8 pg = shapeOf bands.green ∧
      shapeU8 pb = shapeOf bands.blue ∧
      (∀ v ∈ pr.flatten, v ≤ 255) ∧
      (∀ v ∈ pg.flatten, v ≤ 255) ∧
      (∀ v ∈ pb.flatten, v ≤ 255) := by
  obtain ⟨pr, hr, hrs, hrv⟩ :=
    processBand_ok_shape eaHist bands.qa method p cl bands.red hea hm (fun _ => hqa)
  obtain ⟨pg, hg2, hgs, hgv⟩ :=
    processBand_ok_shape eaHist bands.qa method p cl bands.green hea hm
      (fun _ qa hmem => (hqa qa hmem).trans hg.symm)
  obtain ⟨pb, hb2, hbs, hbv⟩ :=
    processBand_ok_shape eaHist bands.qa method p cl bands.blue hea hm
      (fun _ qa hmem => (hqa qa hmem).trans hb.symm)
  refine ⟨pr, pg, pb, hr, hg2, hb2, ?_, hrs, hgs, hbs, hrv, hgv, hbv⟩
  unfold create_rgb_stack
  rw [hr, hg2, hb2]
  show npStack [pr, pg, pb] = _
  unfold npStack
  rw [if_pos]
  intro x hx
  simp only [List.headD_cons]
  rcases List.mem_cons.mp hx with h | h
  · rw [h]
  rcases List.mem_cons.mp h with h | h
  · rw [h, hgs, hg, ← hrs]
  rcases List.mem_cons.mp h with h | h
  · rw [h, hbs, hb, ← hrs]
  · cases h

/-- Witness for C4 at a concrete two-by-one scene with a qa band and the
rescaling method. -/
theorem c4_witness :
    (∀ b c, shapeOf ((fun (b : Band) (_ : ℚ) => b) b c) = shapeOf b) ∧
    (("rescaling" : String) = "rescaling" ∨ ("rescaling" : String) = "clahe") ∧
    shapeOf (Bands.mk [[7,8]] [[5,6]] [[1,2]] (some [[0,1]])).green =
      shapeOf (Bands.mk [[7,8]] [[5,6]] [[1,2]] (some [[0,1]])).red ∧
    shapeOf (Bands.mk [[7,8]] [[5,6]] [[1,2]] (some [[0,1]])).blue =
      shapeOf (Bands.mk [[7,8]] [[5,6]] [[1,2]] (some [[0,1]])).red ∧
    (∀ qa ∈ (Bands.mk [[7,8]] [[5,6]] [[1,2]] (some [[0,1]])).qa,
      shapeOf qa = shapeOf (Bands.mk [[7,8]] [[5,6]] [[1,2]] (some [[0,1]])).red) ∧
    (Bands.mk [[7,8]] [[5,6]] [[1,2]] (some [[0,1]])).red.flatten ≠ [] ∧
    (∃ pr pg pb,
      processBand (fun b _ => b) (some [[0,1]]) "rescaling" 2 (3/100) [[7,8]] = .ok pr ∧
      processBand (fun b _ => b) (some [[0,1]]) "rescaling" 2 (3/100) [[5,6]] = .ok pg ∧
      processBand (fun b _ => b) (some [[0,1]]) "rescaling" 2 (3/100) [[1,2]] = .ok pb ∧
      create_rgb_stack (fun b _ => b) (Bands.mk [[7,8]] [[5,6]] [[1,2]] (some [[0,1]]))
        "rescaling" 2 (3/100) = .ok [pr, pg, pb] ∧
      shapeU8 pr = shapeOf (Bands.mk [[7,8]] [[5,6]] [[1,2]] (some [[0,1]])).red ∧
      shapeU8 pg = shapeOf (Bands.mk [[7,8]] [[5,6]] [[1,2]] (some [[0,1]])).green ∧
      shapeU8 pb = shapeOf (Bands.mk [[7,8]] [[5,6]] [[1,2]] (some [[0,1]])).blue ∧
      (∀ v ∈ pr.flatten, v ≤ 255) ∧
      (∀ v ∈ pg.flatten, v ≤ 255) ∧
      (∀ v ∈ pb.flatten, v ≤ 255)) := by
  have h1 : ∀ b c, shapeOf ((fun (b : Band) (_ : ℚ) => b) b c) = shapeOf b :=
    fun _ _ => rfl
  have h2 : ("rescaling" : String) = "rescaling" ∨ ("rescaling" : String) = "clahe" :=
    Or.inl rfl
  have h5 : ∀ qa ∈ (Bands.mk [[7,8]] [[5,6]] [[1,2]] (some [[0,1]])).qa,
      shapeOf qa = shapeOf (Bands.mk [[7,8]] [[5,6]] [[1,2]] (some [[0,1]])).red := by
    intro qa hmem
    cases hmem
    rfl
  have h6 : (Bands.mk [[7,8]] [[5,6]] [[1,2]] (some [[0,1]])).red.flatten ≠ [] := by
    simp
  exact ⟨h1, h2, rfl, rfl, h5, h6,
    c4_output_shape_dtype_order (fun b _ => b) _ "rescaling" 2 (3/100)
      h1 h2 rfl rfl h5 h6⟩

/-- Claim C8, confirmed (with the tails read as the complement of the
closed cut-point interval): with no fill mask the rescaled band consists of
bytes, and whenever the band holds two distinct values inside the closed
interval between the two cut points — so the cut points differ — the
output attains minimum exactly 0 and maximum exactly 255. -/
theorem c8_output_full_range (band : Band) (p : ℚ)
    (hp0 : 0 < p) (hp50 : p < 50)
    (hne : band.flatten ≠ [])
    (hdist : ∃ x ∈ band.flatten, ∃ y ∈ band.flatten, x ≠ y ∧
      percentileQ band.flatten p ≤ x ∧ x ≤ percentileQ band.flatten (100 - p) ∧
      percentileQ band.flatten p ≤ y ∧ y ≤ percentileQ band.flatten (100 - p)) :
    ∃ out, normalizeRescaling none band p = .ok out ∧
      npMinN out.flatten = 0 ∧ npMaxN out.flatten = 255 ∧
      ∀ v ∈ out.flatten, v ≤ 255 := by
  obtain ⟨x, hx, y, hy, hxy, hx1, hx2, hy1, hy2⟩ := hdist
  set vmin := percentileQ band.flatten p with hvmin
  set vmax := percentileQ band.flatten (100 - p) with hvmax
  have hlt : vmin < vmax := by
    rcases (hx1.trans hx2).lt_or_eq with h | h
    · exact h
    · exfalso
      apply hxy
      rw [← h] at hx2 hy2
      rw [le_antisymm hx2 hx1, le_antisymm hy2 hy1]
  obtain ⟨a, ha_mem, b, _, ha_le, _⟩ :=
    percentileQ_between band.flatten p hne hp0.le (by linarith)
  obtain ⟨a2, _, M, hM_mem, _, hM_ge⟩ :=
    percentileQ_between band.flatten (100 - p) hne (by linarith) (by linarith)
  refine ⟨rescale_intensity band vmin vmax, rfl, ?_, ?_, rescale_intensity_le _ _ _⟩
  · apply npMinN_eq_zero
    rw [show rescale_intensity band vmin vmax =
        band.map (List.map (fun t => toU8 (rescaleVal vmin vmax t))) from
        if_pos hlt.ne, flatten_map_map]
    have hz : toU8 (rescaleVal vmin vmax a) = 0 := by
      rw [rescaleVal_low _ _ _ hlt ha_le, toU8_zero]
    exact hz ▸ List.mem_map_of_mem _ ha_mem
  · apply npMaxN_eq_255
    · rw [show rescale_intensity band vmin vmax =
          band.map (List.map (fun t => toU8 (rescaleVal vmin vmax t))) from
          if_pos hlt.ne, flatten_map_map]
      have hz : toU8 (rescaleVal vmin vmax M) = 255 := by
        rw [rescaleVal_high _ _ _ hlt hM_ge, toU8_255]
      exact hz ▸ List.mem_map_of_mem _ hM_mem
    · exact rescale_intensity_le _ _ _

/-- Witness for C8 on the band with rows 0 0 and 100 200 at percentile 2,
whose cut points are 0 and 194 and which holds the distinct in-range values
0 and 100. -/
theorem c8_witness :
    (0:ℚ) < 2 ∧ (2:ℚ) < 50 ∧
    ([[0,0],[100,200]] : Band).flatten ≠ [] ∧
    (∃ x ∈ ([[0,0],[100,200]] : Band).flatten,
      ∃ y ∈ ([[0,0],[100,200]] : Band).flatten, x ≠ y ∧
      percentileQ (([[0,0],[100,200]] : Band).flatten) 2 ≤ x ∧
      x ≤ percentileQ (([[0,0],[100,200]] : Band).flatten) (100 - 2) ∧
      percentileQ (([[0,0],[100,200]] : Band).flatten) 2 ≤ y ∧
      y ≤ percentileQ (([[0,0],[100,200]] : Band).flatten) (100 - 2)) ∧
    (∃ out, normalizeRescaling none [[0,0],[100,200]] 2 = .ok out ∧
      npMinN out.flatten = 0 ∧ npMaxN out.flatten = 255 ∧
      ∀ v ∈ out.flatten, v ≤ 255) := by
  have hmin : percentileQ [0,0,100,200] 2 = 0 := by
    norm_num [percentileQ, sortQ, List.insertionSort, List.orderedInsert,
      List.getD_cons_zero, List.getD_cons_succ, show Int.toNat 2 = 2 from rfl]
  have hmax : percentileQ [0,0,100,200] 98 = 194 := by
    norm_num [percentileQ, sortQ, List.insertionSort, List.orderedInsert,
      List.getD_cons_zero, List.getD_cons_succ, show Int.toNat 2 = 2 from rfl]
  have hne : ([[0,0],[100,200]] : Band).flatten ≠ [] := by simp
  have hdist : ∃ x ∈ ([[0,0],[100,200]] : Band).flatten,
      ∃ y ∈ ([[0,0],[100,200]] : Band).flatten, x ≠ y ∧
      percentileQ (([[0,0],[100,200]] : Band).flatten) 2 ≤ x ∧
      x ≤ percentileQ (([[0,0],[100,200]] : Band).flatten) (100 - 2) ∧
      percentileQ (([[0,0],[100,200]] : Band).flatten) 2 ≤ y ∧
      y ≤ percentileQ (([[0,0],[100,200]] : Band).flatten) (100 - 2) := by
    refine ⟨0, by simp, 100, by simp, by norm_num, ?_, ?_, ?_, ?_⟩ <;>
      norm_num [show (([[0,0],[100,200]] : Band).flatten) = [0,0,100,200] from rfl,
        hmin, hmax]
  exact ⟨by norm_num, by norm_num, hne, hdist,
    c8_output_full_range [[0,0],[100,200]] 2 (by norm_num) (by norm_num) hne hdist⟩

end RasterioPlotting
